import Mathlib

/-
Verification of the MaxMSP-Audio-via-UDP repository core pipeline.

Shallow embedding conventions:
- JS `Buffer` payloads are `List ℕ` of byte values.
- JS numbers are modelled exactly: sample values as `ℚ` (float arithmetic is
  treated as exact rational arithmetic), int16 sample streams as `ℤ`.
- `Math.round` is `jsRound` (round half toward positive infinity).
- `Int16Array` stores wrap modulo 2^16 into the signed range (`toInt16`).
- Max `buffer~` `poke` outside the valid range is a silent no-op, which is
  exactly the behaviour of `List.set` at an out-of-range index; a negative
  index is guarded explicitly.
- Module-level mutable state of each script is an explicit state record, and
  each event handler is a state-transformer function.
-/

set_option maxRecDepth 8000

namespace MaxUDP

/-- JS `Math.round`: round half toward positive infinity. -/
def jsRound (q : ℚ) : ℤ := ⌊q + 1/2⌋

/-- Coercion performed by storing a JS number into an `Int16Array` slot:
wrap modulo 2^16 into the signed 16-bit range. -/
def toInt16 (n : ℤ) : ℤ := (n + 2^15) % 2^16 - 2^15

/-! ### MatrixDecoder (`convertMatrixToFloat32` in sRtin.js and UDPdown.js) -/

/-- IEEE-754 binary32 decoding of four big-endian bytes, as performed by
`Buffer.readFloatBE`.  The numeric value is exact as a rational; `none`
models the non-finite encodings (exponent field 255: infinities and NaNs),
whose `Math.abs` comparison against the bound is false in JS, so they are
dropped by the callers exactly as a `none` is. -/
def decodeFloat32BE (b0 b1 b2 b3 : ℕ) : Option ℚ :=
  let w : ℕ := (b0 % 256) * 2^24 + (b1 % 256) * 2^16 + (b2 % 256) * 2^8 + (b3 % 256)
  let s : ℕ := w / 2^31
  let e : ℕ := (w / 2^23) % 256
  let m : ℕ := w % 2^23
  if e = 255 then none
  else
    let mag : ℚ :=
      if e = 0 then (m : ℚ) / 2^149
      else ((2^23 + m : ℕ) : ℚ) * 2^(e : ℕ) / 2^150
    some (if s = 1 then -mag else mag)

/-- `const skipCount = 131 * 4;` — header bytes skipped by both decoders. -/
def skipCount : ℕ := 131 * 4

/-- Byte access into the payload (in-range by the loop guard). -/
def byteAt (data : List ℕ) (i : ℕ) : ℕ := data.getD i 0

/-- The 4-byte big-endian float group starting at offset `i`
(`matrixData.readFloatBE(i)`). -/
def groupVal (data : List ℕ) (i : ℕ) : Option ℚ :=
  decodeFloat32BE (byteAt data i) (byteAt data (i + 1))
    (byteAt data (i + 2)) (byteAt data (i + 3))

/-- The per-sample validation of both decoders:
`if (Math.abs(value) < bound) floatData.push(value)` — a value is appended
when it is finite and within the amplitude bound, and dropped individually
otherwise. -/
def keepSample (bound v : ℚ) (rest : List ℚ) : List ℚ :=
  if |v| < bound then v :: rest else rest

/-- The decoding loop shared by `convertMatrixToFloat32` in sRtin.js
(`bound = 10`) and in UDPdown.js (`bound = 1e7`):
`for (let i = 0; i < matrixData.length - 3; i += 4)`, skipping offsets below
`skipCount`, reading a big-endian float at each remaining offset and keeping
it (via `keepSample`) when it is finite with `Math.abs(value) < bound`.
A non-finite read (`groupVal = none`) fails the JS bound check, so nothing is
pushed; the `try/catch` of the source can never fire because the loop guard
keeps every read in range. -/
def convertLoop (bound : ℚ) (data : List ℕ) (i : ℕ) : List ℚ :=
  if _h : i + 3 < data.length then
    if i < skipCount then convertLoop bound data (i + 4)
    else
      match groupVal data i with
      | some v => keepSample bound v (convertLoop bound data (i + 4))
      | none => convertLoop bound data (i + 4)
  else []
termination_by data.length - i
decreasing_by all_goals omega

/-- `convertMatrixToFloat32` of sRtin.js: amplitude bound 10. -/
def convertMatrixToFloat32 (data : List ℕ) : List ℚ := convertLoop 10 data 0

/-- The pure output of `convertMatrixToFloat32` of UDPdown.js:
amplitude bound `1e+7`. -/
def convertFloatsUDP (data : List ℕ) : List ℚ := convertLoop 10000000 data 0

/-- Number of complete 4-byte groups after the skipped header. -/
def numGroups (data : List ℕ) : ℕ := (data.length - skipCount) / 4

lemma skipCount_eq : skipCount = 524 := rfl

lemma convertLoop_of_stop (bound : ℚ) (data : List ℕ) {i : ℕ}
    (h : ¬ i + 3 < data.length) :
    convertLoop bound data i = [] := by
  rw [convertLoop.eq_def, dif_neg h]

lemma convertLoop_of_skip (bound : ℚ) (data : List ℕ) {i : ℕ}
    (h : i + 3 < data.length) (hs : i < skipCount) :
    convertLoop bound data i = convertLoop bound data (i + 4) := by
  rw [convertLoop.eq_def, dif_pos h, if_pos hs]

lemma convertLoop_of_read (bound : ℚ) (data : List ℕ) {i : ℕ} {v : ℚ}
    (h : i + 3 < data.length) (hs : ¬ i < skipCount)
    (hv : groupVal data i = some v) (hb : |v| < bound) :
    convertLoop bound data i = v :: convertLoop bound data (i + 4) := by
  rw [convertLoop.eq_def, dif_pos h, if_neg hs, hv]
  simp [keepSample, hb]

lemma convertLoop_step_skip (bound : ℚ) (data : List ℕ) {i : ℕ}
    (hi : i + 4 ≤ skipCount) :
    convertLoop bound data i = convertLoop bound data (i + 4) := by
  by_cases h : i + 3 < data.length
  · exact convertLoop_of_skip bound data h (by omega)
  · rw [convertLoop_of_stop bound data h,
      convertLoop_of_stop bound data (by omega)]

lemma convertLoop_skip_phase (bound : ℚ) (data : List ℕ) :
    ∀ j, 4 * j ≤ skipCount →
      convertLoop bound data (skipCount - 4 * j) = convertLoop bound data skipCount := by
  intro j
  induction j with
  | zero => intro _; simp
  | succ k ih =>
      intro hk
      rw [skipCount_eq] at hk
      have h4 : skipCount - 4 * (k + 1) + 4 = skipCount - 4 * k := by
        rw [skipCount_eq]; omega
      rw [convertLoop_step_skip bound data
        (i := skipCount - 4 * (k + 1)) (by rw [skipCount_eq]; omega),
        h4, ih (by rw [skipCount_eq]; omega)]

lemma convertLoop_read_phase (bound : ℚ) (data : List ℕ) (vals : ℕ → ℚ)
    (h : ∀ k < numGroups data,
      groupVal data (skipCount + 4 * k) = some (vals k) ∧ |vals k| < bound) :
    ∀ m k, m = numGroups data - k →
      convertLoop bound data (skipCount + 4 * k)
        = (List.range m).map (fun j => vals (k + j)) := by
  intro m
  induction m with
  | zero =>
      intro k hk
      have hge : numGroups data ≤ k := by omega
      rw [numGroups, skipCount_eq] at hge
      rw [convertLoop_of_stop bound data (by rw [skipCount_eq]; omega)]
      simp
  | succ n ih =>
      intro k hk
      have hlt : k < numGroups data := by omega
      have hlt' := hlt
      rw [numGroups, skipCount_eq] at hlt'
      have hguard : skipCount + 4 * k + 3 < data.length := by
        rw [skipCount_eq]; omega
      obtain ⟨hv, hb⟩ := h k hlt
      rw [convertLoop_of_read bound data hguard (by rw [skipCount_eq]; omega) hv hb]
      have h4 : skipCount + 4 * k + 4 = skipCount + 4 * (k + 1) := by ring
      rw [h4, ih (k + 1) (by omega)]
      rw [List.range_succ_eq_map]
      simp only [List.map_cons, List.map_map]
      congr 1
      apply List.map_congr_left
      intro a _
      simp only [Function.comp_apply]
      congr 1
      omega

/-- Claim C1: for every payload in which every aligned 4-byte group after the
first `skipCount` header bytes decodes to a finite float within the amplitude
bound, the decoding loop returns exactly `(len - skipCount) / 4` samples, in
payload order (a trailing remainder of fewer than 4 bytes is dropped without
error): the output is precisely the list of those decoded group values. -/
theorem convertLoop_decodes_all (bound : ℚ) (data : List ℕ) (vals : ℕ → ℚ)
    (h : ∀ k < numGroups data,
      groupVal data (skipCount + 4 * k) = some (vals k) ∧ |vals k| < bound) :
    convertLoop bound data 0 = (List.range (numGroups data)).map vals := by
  have h0 : (0 : ℕ) = skipCount - 4 * 131 := by rw [skipCount_eq]
  rw [h0, convertLoop_skip_phase bound data 131 (by rw [skipCount_eq])]
  have h524 : skipCount = skipCount + 4 * 0 := by ring
  rw [h524, convertLoop_read_phase bound data vals h (numGroups data) 0 (by omega)]
  simp

set_option maxRecDepth 10000 in
/-- Witness for C1: a 528-byte all-zero payload has one post-header group,
decoding to the (subnormal) value 0, and the sRtin decoder returns exactly
that single sample. -/
theorem convertLoop_decodes_all_witness :
    (∀ k < numGroups (List.replicate 528 0),
      groupVal (List.replicate 528 0) (skipCount + 4 * k) = some ((fun _ => (0 : ℚ)) k)
        ∧ |(fun _ => (0 : ℚ)) k| < 10) ∧
    convertLoop 10 (List.replicate 528 0) 0
      = (List.range (numGroups (List.replicate 528 0))).map (fun _ => (0 : ℚ)) := by
  have hb : ∀ i < 528, byteAt (List.replicate 528 (0 : ℕ)) i = 0 := by
    intro i hi
    rw [byteAt, List.getD_eq_getElem?_getD, List.getElem?_replicate_of_lt hi]
    rfl
  have hg : ∀ k < numGroups (List.replicate 528 (0 : ℕ)),
      groupVal (List.replicate 528 0) (skipCount + 4 * k) = some ((fun _ => (0 : ℚ)) k)
        ∧ |(fun _ => (0 : ℚ)) k| < 10 := by
    intro k hk
    have hk1 : k = 0 := by
      have : numGroups (List.replicate 528 (0 : ℕ)) = 1 := by
        simp [numGroups, skipCount]
      omega
    subst hk1
    refine ⟨?_, by norm_num⟩
    have h524 : skipCount + 4 * 0 = 524 := by rw [skipCount_eq]
    rw [groupVal, h524]
    rw [show (524 : ℕ) + 1 = 525 from rfl, show (524 : ℕ) + 2 = 526 from rfl,
      show (524 : ℕ) + 3 = 527 from rfl]
    rw [hb 524 (by norm_num), hb 525 (by norm_num), hb 526 (by norm_num),
      hb 527 (by norm_num)]
    norm_num [decodeFloat32BE]
  exact ⟨hg, convertLoop_decodes_all 10 (List.replicate 528 0) (fun _ => 0) hg⟩

/-! ### Resampler (`downsampleAudio` in sRtin.js) -/

/-- The loop body of `downsampleAudio` for output index `i`: fractional
source position, linear interpolation while `index + 1` is in range, and the
raw sample `audioData[index]` otherwise. -/
def downsampleBody (audioData : List ℤ) (r : ℚ) (i : ℕ) : ℤ :=
  let position : ℚ := (i : ℚ) * r
  let index : ℕ := (⌊position⌋).toNat
  let fraction : ℚ := position - ⌊position⌋
  if index + 1 < audioData.length then
    toInt16 (jsRound ((audioData.getD index 0 : ℚ) * (1 - fraction)
      + (audioData.getD (index + 1) 0 : ℚ) * fraction))
  else
    toInt16 (audioData.getD index 0)

/-- `downsampleAudio(audioData, fromSampleRate, toSampleRate)` of sRtin.js.
The input chunk is a JS array of int16 samples, the output an `Int16Array`.
`sampleRateRatio = fromSampleRate / toSampleRate`;
`newLength = Math.round(audioData.length / sampleRateRatio)`; each output
slot `i` is filled by `downsampleBody`.  The function keeps no state between
calls.  (An out-of-range JS read gives `undefined`, which an `Int16Array`
stores as 0; this is modelled by `getD _ _ 0`.  JS number arithmetic is
modelled exactly over `ℚ`.) -/
def downsampleAudio (audioData : List ℤ) (fromRate toRate : ℕ) : List ℤ :=
  let r : ℚ := (fromRate : ℚ) / (toRate : ℚ)
  let newLength : ℕ := (jsRound ((audioData.length : ℚ) / r)).toNat
  (List.range newLength).map (downsampleBody audioData r)

lemma downsampleAudio_eq_map (a : List ℤ) (f t : ℕ) :
    downsampleAudio a f t
      = (List.range ((jsRound ((a.length : ℚ) / ((f : ℚ) / (t : ℚ)))).toNat)).map
          (downsampleBody a ((f : ℚ) / (t : ℚ))) := rfl

lemma downsampleAudio_length (a : List ℤ) (f t : ℕ) :
    (downsampleAudio a f t).length
      = (jsRound ((a.length : ℚ) / ((f : ℚ) / (t : ℚ)))).toNat := by
  rw [downsampleAudio_eq_map, List.length_map, List.length_range]

lemma downsampleAudio_getD (a : List ℤ) (f t i : ℕ)
    (hi : i < (jsRound ((a.length : ℚ) / ((f : ℚ) / (t : ℚ)))).toNat) :
    (downsampleAudio a f t).getD i 0 = downsampleBody a ((f : ℚ) / (t : ℚ)) i := by
  rw [downsampleAudio_eq_map, List.getD_eq_getElem?_getD, List.getElem?_map,
    List.getElem?_range hi]
  rfl

/-- `⌊(1 : ℚ)/2⌋ = 0`. -/
lemma floor_half : ⌊(1 : ℚ)/2⌋ = 0 := by
  rw [Int.floor_eq_iff]
  norm_num

/-- Rounding an integer-valued rational is the identity. -/
lemma jsRound_intCast (v : ℤ) : jsRound (v : ℚ) = v := by
  rw [jsRound, Int.floor_int_add, floor_half, add_zero]

/-- Claim C3 (amended): whenever an output position `i * ratio` reaches at or
past the last input sample of the chunk (`index + 1` out of range), the
output value is `audioData[index]` — clamped to the last available sample of
the current chunk.  `downsampleAudio` carries no history between calls (it is
a pure function of the chunk alone), so no interpolation against a previous
chunk tail ever happens. -/
theorem downsampleAudio_clamps (a : List ℤ) (f t i : ℕ)
    (hi : i < (jsRound ((a.length : ℚ) / ((f : ℚ) / (t : ℚ)))).toNat)
    (hclamp : ¬ ((⌊(i : ℚ) * ((f : ℚ) / (t : ℚ))⌋).toNat + 1 < a.length)) :
    (downsampleAudio a f t).getD i 0
      = toInt16 (a.getD (⌊(i : ℚ) * ((f : ℚ) / (t : ℚ))⌋).toNat 0) := by
  rw [downsampleAudio_getD a f t i hi, downsampleBody, if_neg hclamp]

/-- Counterexample to claim C3 as stated: for the call
`downsampleAudio([0, 100], 5, 4)` the second output position is
`1 * 5/4 = 1.25`, strictly past the last input sample (index 1), yet the
output is `[0, 100]` — the value 100 is the clamped last available sample of
the current chunk, not an interpolation against any carried history (the
function has no history state at all). -/
theorem downsampleAudio_clamps_cex :
    downsampleAudio [0, 100] 5 4 = [0, 100] ∧
    ¬ ((⌊(1 : ℚ) * ((5 : ℚ) / (4 : ℚ))⌋).toNat + 1 < ([0, 100] : List ℤ).length)
      ∧ (1 : ℚ) < (1 : ℚ) * ((5 : ℚ) / (4 : ℚ)) := by
  have hf1 : ⌊(1 : ℚ) * ((5 : ℚ) / (4 : ℚ))⌋ = 1 := by
    rw [Int.floor_eq_iff]
    norm_num
  have hf0 : ⌊(0 : ℚ) * ((5 : ℚ) / (4 : ℚ))⌋ = 0 := by norm_num
  have hn : (jsRound ((([0, 100] : List ℤ).length : ℚ) / ((5 : ℚ) / (4 : ℚ)))).toNat = 2 := by
    have : jsRound ((2 : ℚ) / ((5 : ℚ) / (4 : ℚ))) = 2 := by
      rw [jsRound, Int.floor_eq_iff]
      norm_num
    rw [show (([0, 100] : List ℤ).length : ℚ) = (2 : ℚ) by norm_num, this]
    rfl
  refine ⟨?_, ?_, by norm_num⟩
  · rw [downsampleAudio_eq_map]
    simp only [Nat.cast_ofNat]
    rw [hn, show List.range 2 = [0, 1] from rfl]
    simp only [List.map_cons, List.map_nil]
    rw [downsampleBody, downsampleBody]
    simp only [Nat.cast_zero, Nat.cast_one]
    rw [hf0, hf1]
    norm_num [toInt16, jsRound, floor_half]
  · rw [hf1]
    norm_num

/-- Witness for the amended C3 at chunk `[0, 100]`, rates `5 → 4`, output
index 1 (position 1.25, past the last input sample). -/
theorem downsampleAudio_clamps_witness :
    ((1 : ℕ) < (jsRound ((([0, 100] : List ℤ).length : ℚ)
        / (((5 : ℕ) : ℚ) / ((4 : ℕ) : ℚ)))).toNat
      ∧ ¬ ((⌊(1 : ℚ) * (((5 : ℕ) : ℚ) / ((4 : ℕ) : ℚ))⌋).toNat + 1
            < ([0, 100] : List ℤ).length))
    ∧ (downsampleAudio [0, 100] 5 4).getD 1 0
        = toInt16 (([0, 100] : List ℤ).getD
            (⌊(1 : ℚ) * (((5 : ℕ) : ℚ) / ((4 : ℕ) : ℚ))⌋).toNat 0) := by
  have hc : (((5 : ℕ) : ℚ) / ((4 : ℕ) : ℚ)) = ((5 : ℚ) / (4 : ℚ)) := by norm_num
  have hf1 : ⌊(1 : ℚ) * ((5 : ℚ) / (4 : ℚ))⌋ = 1 := by
    rw [Int.floor_eq_iff]
    constructor
    · norm_num
    · norm_num
  have h1 : (1 : ℕ) < (jsRound ((([0, 100] : List ℤ).length : ℚ)
      / (((5 : ℕ) : ℚ) / ((4 : ℕ) : ℚ)))).toNat := by
    rw [hc, show (([0, 100] : List ℤ).length : ℚ) = (2 : ℚ) by norm_num]
    have : jsRound ((2 : ℚ) / ((5 : ℚ) / (4 : ℚ))) = 2 := by
      rw [jsRound, Int.floor_eq_iff]
      constructor
      · norm_num
      · norm_num
    rw [this]
    decide
  have h2 : ¬ ((⌊(1 : ℚ) * (((5 : ℕ) : ℚ) / ((4 : ℕ) : ℚ))⌋).toNat + 1
      < ([0, 100] : List ℤ).length) := by
    rw [hc, hf1]
    simp
  exact ⟨⟨h1, h2⟩, downsampleAudio_clamps [0, 100] 5 4 1 h1 h2⟩

/-- `toInt16` is the identity on the signed 16-bit range. -/
lemma toInt16_eq_self {v : ℤ} (h1 : -(2^15) ≤ v) (h2 : v < 2^15) :
    toInt16 v = v := by
  rw [toInt16]
  omega

/-- Every source index touched by `downsampleAudio` is inside the chunk. -/
lemma downsample_index_lt (len f t i : ℕ) (hf : 0 < f) (ht : 0 < t)
    (hi : i < (jsRound ((len : ℚ) / ((f : ℚ) / (t : ℚ)))).toNat) :
    (⌊(i : ℚ) * ((f : ℚ) / (t : ℚ))⌋).toNat < len := by
  set r : ℚ := (f : ℚ) / (t : ℚ) with hrdef
  have hr : (0 : ℚ) < r := by
    apply div_pos
    · exact_mod_cast hf
    · exact_mod_cast ht
  have hq0 : (0 : ℚ) ≤ (len : ℚ) / r + 1/2 := by positivity
  have hfl0 : 0 ≤ ⌊(len : ℚ) / r + 1/2⌋ := Int.floor_nonneg.2 hq0
  have h1 : (i : ℤ) < ⌊(len : ℚ) / r + 1/2⌋ := by
    rw [jsRound] at hi
    omega
  have h2 : ((i : ℚ) + 1) ≤ (len : ℚ) / r + 1/2 := by
    have hcast : ((i : ℤ) : ℚ) + 1 ≤ (⌊(len : ℚ) / r + 1/2⌋ : ℚ) := by
      exact_mod_cast h1
    calc ((i : ℚ) + 1) = ((i : ℤ) : ℚ) + 1 := by push_cast; ring
      _ ≤ (⌊(len : ℚ) / r + 1/2⌋ : ℚ) := hcast
      _ ≤ (len : ℚ) / r + 1/2 := Int.floor_le _
  have h3 : (i : ℚ) * r ≤ ((len : ℚ) / r - 1/2) * r := by
    apply mul_le_mul_of_nonneg_right _ (le_of_lt hr)
    linarith
  have h4 : ((len : ℚ) / r - 1/2) * r = (len : ℚ) - r / 2 := by
    have hne : r ≠ 0 := ne_of_gt hr
    field_simp
    ring
  have h5 : (i : ℚ) * r < (len : ℚ) := by
    rw [h4] at h3
    linarith
  have h6 : ⌊(i : ℚ) * r⌋ < (len : ℤ) := Int.floor_lt.2 (by exact_mod_cast h5)
  have h7 : 0 ≤ ⌊(i : ℚ) * r⌋ := Int.floor_nonneg.2 (by positivity)
  omega

/-- On a constant chunk every output sample of the resampler equals the
constant. -/
lemma downsampleBody_replicate (v : ℤ) (len f t i : ℕ) (hf : 0 < f) (ht : 0 < t)
    (hv1 : -(2^15) ≤ v) (hv2 : v < 2^15)
    (hi : i < (jsRound ((len : ℚ) / ((f : ℚ) / (t : ℚ)))).toNat) :
    downsampleBody (List.replicate len v) ((f : ℚ) / (t : ℚ)) i = v := by
  have hgetD : ∀ k, k < len → (List.replicate len v).getD k 0 = v := by
    intro k hk
    rw [List.getD_eq_getElem?_getD, List.getElem?_replicate_of_lt hk]
    rfl
  have hidx := downsample_index_lt len f t i hf ht hi
  rw [downsampleBody]
  simp only [List.length_replicate]
  by_cases hcase : (⌊(i : ℚ) * ((f : ℚ) / (t : ℚ))⌋).toNat + 1 < len
  · rw [if_pos hcase, hgetD _ (by omega), hgetD _ hcase]
    have hval : ((v : ℚ) * (1 - ((i : ℚ) * ((f : ℚ) / (t : ℚ))
          - ⌊(i : ℚ) * ((f : ℚ) / (t : ℚ))⌋))
        + (v : ℚ) * ((i : ℚ) * ((f : ℚ) / (t : ℚ))
          - ⌊(i : ℚ) * ((f : ℚ) / (t : ℚ))⌋)) = ((v : ℤ) : ℚ) := by
      ring
    rw [hval, jsRound_intCast, toInt16_eq_self hv1 hv2]
  · rw [if_neg hcase, hgetD _ hidx, toInt16_eq_self hv1 hv2]

/-- Claim C4 (amended): resampling `N` consecutive chunks of the constant
value `v` (each of length `len`, at rates `f → t`) yields an all-`v` output;
each chunk contributes `Math.round(len / (f/t))` samples, so the total length
is `N * round(len/(f/t))` — and not, in general, `round(N*len/(f/t))`.
There is no deviation from `v` at any chunk boundary. -/
theorem downsample_const (v : ℤ) (len f t : ℕ) (hf : 0 < f) (ht : 0 < t)
    (hv1 : -(2^15) ≤ v) (hv2 : v < 2^15) :
    downsampleAudio (List.replicate len v) f t
      = List.replicate ((jsRound ((len : ℚ) / ((f : ℚ) / (t : ℚ)))).toNat) v ∧
    ∀ N, (List.replicate N (downsampleAudio (List.replicate len v) f t)).flatten
      = List.replicate (N * (jsRound ((len : ℚ) / ((f : ℚ) / (t : ℚ)))).toNat) v := by
  have hmain : downsampleAudio (List.replicate len v) f t
      = List.replicate ((jsRound ((len : ℚ) / ((f : ℚ) / (t : ℚ)))).toNat) v := by
    rw [downsampleAudio_eq_map]
    simp only [List.length_replicate]
    rw [List.eq_replicate_iff]
    constructor
    · rw [List.length_map, List.length_range]
    · intro b hb
      rw [List.mem_map] at hb
      obtain ⟨i, hi, hbody⟩ := hb
      rw [List.mem_range] at hi
      rw [← hbody]
      exact downsampleBody_replicate v len f t i hf ht hv1 hv2 hi
  refine ⟨hmain, fun N => ?_⟩
  rw [hmain]
  simp

/-- Witness for the amended C4 at `v = 7`, `len = 5`, rates `2 → 1`. -/
theorem downsample_const_witness :
    ((0 : ℕ) < 2 ∧ (0 : ℕ) < 1 ∧ -(2^15) ≤ (7 : ℤ) ∧ (7 : ℤ) < 2^15) ∧
    (downsampleAudio (List.replicate 5 (7 : ℤ)) 2 1
      = List.replicate ((jsRound ((5 : ℚ) / ((2 : ℚ) / (1 : ℚ)))).toNat) 7 ∧
    ∀ N, (List.replicate N (downsampleAudio (List.replicate 5 (7 : ℤ)) 2 1)).flatten
      = List.replicate (N * (jsRound ((5 : ℚ) / ((2 : ℚ) / (1 : ℚ)))).toNat) 7) := by
  have h := downsample_const 7 5 2 1 (by decide) (by decide) (by decide) (by decide)
  refine ⟨⟨by decide, by decide, by decide, by decide⟩, ?_⟩
  have hcast : (((2 : ℕ) : ℚ) / ((1 : ℕ) : ℚ)) = ((2 : ℚ) / (1 : ℚ)) := by norm_num
  have hcast5 : (((5 : ℕ) : ℚ)) = (5 : ℚ) := by norm_num
  rw [← hcast, ← hcast5]
  exact ⟨h.1, h.2⟩

/-- Counterexample to claim C4 as stated: two consecutive constant chunks of
value 7 and length 5, resampled at ratio `r = 2/1`, produce 6 output samples
(each chunk contributes `round(5/2) = 3`), whereas the claim predicts a total
length of `round(N*chunkLen/r) = round(10/2) = 5`. -/
theorem downsample_const_cex :
    (List.replicate 2 (downsampleAudio (List.replicate 5 (7 : ℤ)) 2 1)).flatten.length = 6
    ∧ (jsRound (((2 * 5 : ℕ) : ℚ) / (((2 : ℕ) : ℚ) / ((1 : ℕ) : ℚ)))).toNat = 5
    ∧ (6 : ℕ) ≠ 5 := by
  have hlen1 : (downsampleAudio (List.replicate 5 (7 : ℤ)) 2 1).length = 3 := by
    rw [downsampleAudio_length]
    simp only [List.length_replicate]
    have : jsRound (((5 : ℕ) : ℚ) / (((2 : ℕ) : ℚ) / ((1 : ℕ) : ℚ))) = 3 := by
      rw [jsRound, Int.floor_eq_iff]
      norm_num
    rw [this]
    rfl
  refine ⟨?_, ?_, by decide⟩
  · simp only [List.length_flatten, List.map_replicate, hlen1, List.sum_replicate]
    rfl
  · have : jsRound (((2 * 5 : ℕ) : ℚ) / (((2 : ℕ) : ℚ) / ((1 : ℕ) : ℚ))) = 5 := by
      rw [jsRound, Int.floor_eq_iff]
      norm_num
    rw [this]
    rfl

/-! ### ASRBridge framing (the `while` loop of `startServer` in sRtin.js) -/

/-- `const TARGET_SAMPLE_RATE = 16000;` — the frame size drained from the
accumulator (`audioBuffer`) by the `while` loop of `startServer`. -/
def TARGET_SAMPLE_RATE : ℕ := 16000

/-- `const INPUT_SAMPLE_RATE = 44100;` -/
def INPUT_SAMPLE_RATE : ℕ := 44100

/-- The draining `while` loop of `startServer` (sRtin.js):
`while (audioBuffer.length >= frameSize) { chunk = slice(0, frameSize);
audioBuffer = slice(frameSize); ... }`.  Returns the extracted frames in
order together with the remaining accumulator.  (`0 < frameSize` is required
for the loop to terminate; the source runs it with the constant 16000.) -/
def drainFrames (frameSize : ℕ) (acc : List ℤ) : List (List ℤ) × List ℤ :=
  if _h : 0 < frameSize ∧ frameSize ≤ acc.length then
    let rest := drainFrames frameSize (acc.drop frameSize)
    (acc.take frameSize :: rest.1, rest.2)
  else ([], acc)
termination_by acc.length
decreasing_by simp only [List.length_drop]; omega

/-- One `push` to the frame accumulator: concatenate the incoming samples
(`audioBuffer = audioBuffer.concat(...)`) and drain all complete frames. -/
def pushASR (frameSize : ℕ) (acc incoming : List ℤ) : List (List ℤ) × List ℤ :=
  drainFrames frameSize (acc ++ incoming)

/-- A whole sequence of pushes starting from an empty accumulator, collecting
every frame handed to the recognizer in order. -/
def runPushes (frameSize : ℕ) (pushes : List (List ℤ)) : List (List ℤ) × List ℤ :=
  pushes.foldl (fun st p =>
    let r := pushASR frameSize st.2 p
    (st.1 ++ r.1, r.2)) ([], [])

/-- Splitting a sum by a first full division step. -/
lemma add_div_mod_helper (L x f : ℕ) (hf : 0 < f) :
    (L + x) / f = L / f + (L % f + x) / f ∧ (L + x) % f = (L % f + x) % f := by
  constructor
  · conv_lhs => rw [← Nat.div_add_mod L f, Nat.add_assoc]
    rw [Nat.mul_add_div hf]
  · conv_lhs => rw [← Nat.div_add_mod L f, Nat.add_assoc]
    rw [Nat.mul_add_mod]

lemma drainFrames_spec (frameSize : ℕ) (hf : 0 < frameSize) (acc : List ℤ) :
    (drainFrames frameSize acc).1.flatten ++ (drainFrames frameSize acc).2 = acc
    ∧ (drainFrames frameSize acc).1.length = acc.length / frameSize
    ∧ (∀ fr ∈ (drainFrames frameSize acc).1, fr.length = frameSize)
    ∧ (drainFrames frameSize acc).2.length = acc.length % frameSize := by
  rw [drainFrames.eq_def]
  by_cases h : 0 < frameSize ∧ frameSize ≤ acc.length
  · rw [dif_pos h]
    obtain ⟨ih1, ih2, ih3, ih4⟩ := drainFrames_spec frameSize hf (acc.drop frameSize)
    refine ⟨?_, ?_, ?_, ?_⟩
    · simp only [List.flatten_cons, List.append_assoc, ih1]
      exact List.take_append_drop frameSize acc
    · simp only [List.length_cons, ih2, List.length_drop]
      rw [Nat.div_eq_sub_div hf h.2]
    · intro fr hfr
      rcases List.mem_cons.1 hfr with hfr | hfr
      · subst hfr
        rw [List.length_take]
        omega
      · exact ih3 fr hfr
    · rw [ih4]
      simp only [List.length_drop]
      rw [← Nat.mod_eq_sub_mod h.2]
  · rw [dif_neg h]
    have hlt : acc.length < frameSize := by omega
    refine ⟨by simp, ?_, by simp, ?_⟩
    · simp only [List.length_nil]
      rw [Nat.div_eq_of_lt hlt]
    · rw [Nat.mod_eq_of_lt hlt]
termination_by acc.length
decreasing_by simp only [List.length_drop]; omega

lemma runPushes_append (frameSize : ℕ) (ps : List (List ℤ)) (p : List ℤ) :
    runPushes frameSize (ps ++ [p])
      = ((runPushes frameSize ps).1 ++ (pushASR frameSize (runPushes frameSize ps).2 p).1,
         (pushASR frameSize (runPushes frameSize ps).2 p).2) := by
  rw [runPushes, runPushes, List.foldl_append]
  rfl

lemma runPushes_spec_aux (frameSize : ℕ) (hf : 0 < frameSize) (pushes : List (List ℤ)) :
    (runPushes frameSize pushes).1.flatten ++ (runPushes frameSize pushes).2
        = pushes.flatten
    ∧ (runPushes frameSize pushes).1.length = pushes.flatten.length / frameSize
    ∧ (∀ fr ∈ (runPushes frameSize pushes).1, fr.length = frameSize)
    ∧ (runPushes frameSize pushes).2.length = pushes.flatten.length % frameSize := by
  induction pushes using List.reverseRecOn with
  | nil => simp [runPushes]
  | append_singleton ps p ih =>
      obtain ⟨ih1, ih2, ih3, ih4⟩ := ih
      obtain ⟨d1, d2, d3, d4⟩ :=
        drainFrames_spec frameSize hf ((runPushes frameSize ps).2 ++ p)
      rw [runPushes_append]
      refine ⟨?_, ?_, ?_, ?_⟩
      · simp only [List.flatten_append, List.flatten_cons, List.flatten_nil,
          List.append_assoc, List.append_nil, pushASR]
        rw [d1, ← List.append_assoc, ih1]
      · simp only [List.length_append, pushASR, List.flatten_append,
          List.flatten_cons, List.flatten_nil, List.append_nil]
        rw [ih2, d2, List.length_append, ih4]
        exact (add_div_mod_helper ps.flatten.length p.length frameSize hf).1.symm
      · intro fr hfr
        rcases List.mem_append.1 hfr with hfr | hfr
        · exact ih3 fr hfr
        · exact d3 fr hfr
      · simp only [pushASR, List.flatten_append, List.flatten_cons,
          List.flatten_nil, List.append_nil, List.length_append]
        rw [d4, List.length_append, ih4]
        exact (add_div_mod_helper ps.flatten.length p.length frameSize hf).2.symm

/-- Claim C8: over any sequence of pushes totalling `total` samples, the
accumulator loop forwards exactly `total / frameSize` frames, each exactly
`frameSize` long, in arrival order (their concatenation followed by the
retained remainder reproduces the input stream), and after every push the
retained accumulator holds fewer than `frameSize` samples. -/
theorem runPushes_spec (frameSize : ℕ) (hf : 0 < frameSize) (pushes : List (List ℤ)) :
    (runPushes frameSize pushes).1.length = pushes.flatten.length / frameSize
    ∧ (∀ fr ∈ (runPushes frameSize pushes).1, fr.length = frameSize)
    ∧ (runPushes frameSize pushes).1.flatten ++ (runPushes frameSize pushes).2
        = pushes.flatten
    ∧ (∀ k, (runPushes frameSize (pushes.take k)).2.length < frameSize) := by
  obtain ⟨h1, h2, h3, h4⟩ := runPushes_spec_aux frameSize hf pushes
  refine ⟨h2, h3, h1, fun k => ?_⟩
  obtain ⟨-, -, -, h4'⟩ := runPushes_spec_aux frameSize hf (pushes.take k)
  rw [h4']
  exact Nat.mod_lt _ hf

/-- Witness for C8: four pushes of 50 samples each with frame size 160 —
one full frame forwarded (`200 / 160 = 1`), remainder retained. -/
theorem runPushes_spec_witness :
    (0 : ℕ) < 160 ∧
    ((runPushes 160 (List.replicate 4 (List.replicate 50 (0 : ℤ)))).1.length
        = (List.replicate 4 (List.replicate 50 (0 : ℤ))).flatten.length / 160
    ∧ (∀ fr ∈ (runPushes 160 (List.replicate 4 (List.replicate 50 (0 : ℤ)))).1,
        fr.length = 160)
    ∧ (runPushes 160 (List.replicate 4 (List.replicate 50 (0 : ℤ)))).1.flatten
          ++ (runPushes 160 (List.replicate 4 (List.replicate 50 (0 : ℤ)))).2
        = (List.replicate 4 (List.replicate 50 (0 : ℤ))).flatten
    ∧ (∀ k, (runPushes 160 ((List.replicate 4 (List.replicate 50 (0 : ℤ))).take k)).2.length
        < 160)) :=
  ⟨by decide, runPushes_spec 160 (by decide) (List.replicate 4 (List.replicate 50 0))⟩

/-! ### DoubleBufferWriter (writetobuf.js)

Max `buffer~` objects are modelled as `List ℚ` (one channel; `peek` outside
the valid range returns 0 and `poke` outside it is a silent no-op — the
latter is exactly `List.set` at an out-of-range index, with negative indices
guarded explicitly).  The module-level mutable state of writetobuf.js is the
record `DBState`; a scheduled-but-unfired `Task` from `clearBuffer` is
counted in `pending`, because the source never keeps a handle to a task
after scheduling it and therefore never cancels one. -/

/-- `var fadeLength = 441;` -/
def fadeLength : ℕ := 441

/-- `var switchDelay = 20;` (milliseconds before a scheduled clear fires). -/
def switchDelay : ℕ := 20

structure DBState where
  buf1 : List ℚ
  buf2 : List ℚ
  activeIsOne : Bool
  clipStart : ℕ
  pending : ℕ
  deriving DecidableEq

/-- The buffer currently holding the active role. -/
def activeBuf (s : DBState) : List ℚ := if s.activeIsOne then s.buf1 else s.buf2

/-- The buffer currently holding the inactive role. -/
def inactiveBuf (s : DBState) : List ℚ := if s.activeIsOne then s.buf2 else s.buf1

/-- The fade factor `(fadeLength - i) / fadeLength` of `applyFadeOut`. -/
def fadeWeight (i : ℕ) : ℚ := ((fadeLength : ℚ) - (i : ℚ)) / (fadeLength : ℚ)

/-- One iteration of the `applyFadeOut` loop: read the sample at
`bufferLength - fadeLength + i`, scale it by `fadeWeight i`, and poke it
back.  A negative index (buffer shorter than the fade) makes both `peek` and
`poke` silent no-ops. -/
def fadeStep (b : List ℚ) (i : ℕ) : List ℚ :=
  let idx : ℤ := (b.length : ℤ) - (fadeLength : ℤ) + (i : ℤ)
  if 0 ≤ idx then b.set idx.toNat (b.getD idx.toNat 0 * fadeWeight i) else b

/-- `applyFadeOut()` of writetobuf.js, on one channel of the active buffer. -/
def applyFadeOut (buf : List ℚ) : List ℚ :=
  (List.range fadeLength).foldl fadeStep buf

/-- `switchBuffer()` of writetobuf.js: swap the active and inactive roles. -/
def switchBuffer (s : DBState) : DBState := { s with activeIsOne := !s.activeIsOne }

/-- Replace the contents of whichever buffer holds the active role. -/
def setActiveBuf (s : DBState) (b : List ℚ) : DBState :=
  if s.activeIsOne then { s with buf1 := b } else { s with buf2 := b }

/-- `clearBuffer()` of writetobuf.js: apply the fade-out to the active
buffer, swap roles, then schedule (never cancel) a deferred clear task. -/
def clearBuffer (s : DBState) : DBState :=
  let s1 := setActiveBuf s (applyFadeOut (activeBuf s))
  let s2 := switchBuffer s1
  { s2 with pending := s2.pending + 1 }

/-- `clearInactiveBuffer()` of writetobuf.js: zero the buffer that is
inactive at firing time and reset the shared write cursor. -/
def clearInactiveBuffer (s : DBState) : DBState :=
  if s.activeIsOne then
    { s with buf2 := List.replicate s.buf2.length 0, clipStart := 0 }
  else
    { s with buf1 := List.replicate s.buf1.length 0, clipStart := 0 }

/-- A scheduled clear task firing after its delay: it runs
`clearInactiveBuffer` against the state at firing time. -/
def fireClear (s : DBState) : DBState :=
  if 0 < s.pending then
    { (clearInactiveBuffer s) with pending := s.pending - 1 }
  else s

/-- `writeAudioChunk()` of writetobuf.js.  Returns the new state together
with the list of indices poked (the write trace).  The chunk is rejected if
the active buffer is uninitialised/empty or smaller than the chunk; accepted
samples are poked at consecutive indices `clipStart1 + i` — with no
wrap-around during the write — and the cursor then advances, resetting to 0
once it reaches or passes the end of the buffer. -/
def writeAudioChunk (s : DBState) (audioData : List ℚ) : DBState × List ℕ :=
  if (activeBuf s).length = 0 then (s, [])
  else if (activeBuf s).length < audioData.length then (s, [])
  else
    let n := audioData.length
    let idxs := (List.range n).map (fun i => s.clipStart + i)
    let newBuf := (List.range n).foldl
      (fun b i => b.set (s.clipStart + i) (audioData.getD i 0)) (activeBuf s)
    let c := s.clipStart + n
    let c2 := if (activeBuf s).length ≤ c then 0 else c
    ({ setActiveBuf s newBuf with clipStart := c2 }, idxs)

lemma foldl_set_length (l : List ℕ) (b0 : List ℚ) (g : ℕ → ℕ) (f : ℕ → ℚ) :
    (l.foldl (fun b i => b.set (g i) (f i)) b0).length = b0.length := by
  induction l generalizing b0 with
  | nil => rfl
  | cons x xs ih => simp only [List.foldl_cons, ih, List.length_set]

lemma activeBuf_setActiveBuf (s : DBState) (b : List ℚ) :
    activeBuf (setActiveBuf s b) = b := by
  by_cases h : s.activeIsOne
  · simp [setActiveBuf, activeBuf, h]
  · simp [setActiveBuf, activeBuf, h]

lemma inactiveBuf_setActiveBuf (s : DBState) (b : List ℚ) :
    inactiveBuf (setActiveBuf s b) = inactiveBuf s := by
  by_cases h : s.activeIsOne
  · simp [setActiveBuf, inactiveBuf, h]
  · simp [setActiveBuf, inactiveBuf, h]

lemma activeBuf_clipStart_update (s : DBState) (c : ℕ) :
    activeBuf { s with clipStart := c } = activeBuf s := rfl

/-- Claim C2 (amended): the write cursor always stays in `[0, capacity)`
(provided it was there before and the buffer is non-empty), a write never
errors, and after a write that ends exactly at (or past) capacity the cursor
resets to 0, so that the next write begins at index 0 — in particular after
exactly `capacity` samples into a fresh buffer.  However an accepted write
whose span crosses the end of the buffer pokes the *unwrapped* indices
`clipStart + i` (those at or past capacity are silently dropped by the
host); it does not wrap mid-write. -/
theorem writeAudioChunk_ring (s : DBState) (a : List ℚ)
    (hcap : 0 < (activeBuf s).length) (hcur : s.clipStart < (activeBuf s).length) :
    ((writeAudioChunk s a).1.clipStart < (activeBuf (writeAudioChunk s a).1).length)
    ∧ (a.length ≤ (activeBuf s).length →
        (writeAudioChunk s a).2 = (List.range a.length).map (fun i => s.clipStart + i)
        ∧ (writeAudioChunk s a).1.clipStart
            = (if (activeBuf s).length ≤ s.clipStart + a.length then 0
                else s.clipStart + a.length))
    ∧ (s.clipStart + a.length = (activeBuf s).length →
        (writeAudioChunk s a).1.clipStart = 0) := by
  rw [writeAudioChunk, if_neg (by omega)]
  by_cases h1 : (activeBuf s).length < a.length
  · rw [if_pos h1]
    refine ⟨hcur, fun hle => absurd hle (by omega), fun heq => by omega⟩
  · rw [if_neg h1]
    have hact : (activeBuf { setActiveBuf s ((List.range a.length).foldl
        (fun b i => b.set (s.clipStart + i) (a.getD i 0)) (activeBuf s)) with
          clipStart := if (activeBuf s).length ≤ s.clipStart + a.length then 0
            else s.clipStart + a.length }).length = (activeBuf s).length := by
      rw [activeBuf_clipStart_update, activeBuf_setActiveBuf, foldl_set_length]
    refine ⟨?_, fun _ => ⟨rfl, rfl⟩, fun heq => ?_⟩
    · rw [hact]
      by_cases hw : (activeBuf s).length ≤ s.clipStart + a.length
      · show (if (activeBuf s).length ≤ s.clipStart + a.length then 0
          else s.clipStart + a.length) < (activeBuf s).length
        rw [if_pos hw]
        omega
      · show (if (activeBuf s).length ≤ s.clipStart + a.length then 0
          else s.clipStart + a.length) < (activeBuf s).length
        rw [if_neg hw]
        omega
    · show (if (activeBuf s).length ≤ s.clipStart + a.length then 0
        else s.clipStart + a.length) = 0
      rw [if_pos (by omega)]

/-- Counterexample to claim C2 as stated: on a fresh 4-sample buffer, write
3 samples (cursor moves to 3), then write 3 more: the second write pokes
indices `[3, 4, 5]` — indices 4 and 5 are at or beyond capacity 4, and the
write does not wrap to index 0 mid-write.  (A wrap, as the claim requires,
would poke `[3, 0, 1]`.) -/
theorem writeAudioChunk_oob_cex :
    (writeAudioChunk
        (writeAudioChunk ⟨List.replicate 4 0, List.replicate 4 0, true, 0, 0⟩
          [1, 1, 1]).1 [2, 2, 2]).2 = [3, 4, 5]
    ∧ (activeBuf (writeAudioChunk ⟨List.replicate 4 0, List.replicate 4 0, true, 0, 0⟩
          [1, 1, 1]).1).length = 4 := by
  constructor
  · decide
  · decide

/-- Witness for the amended C2 at a fresh 4-sample buffer and a 3-sample
chunk. -/
theorem writeAudioChunk_ring_witness :
    ((0 : ℕ) < (activeBuf ⟨List.replicate 4 0, List.replicate 4 0, true, 0, 0⟩).length
      ∧ (⟨List.replicate 4 0, List.replicate 4 0, true, 0, 0⟩ : DBState).clipStart
          < (activeBuf ⟨List.replicate 4 0, List.replicate 4 0, true, 0, 0⟩).length)
    ∧ (((writeAudioChunk ⟨List.replicate 4 0, List.replicate 4 0, true, 0, 0⟩
          [1, 1, 1]).1.clipStart
        < (activeBuf (writeAudioChunk ⟨List.replicate 4 0, List.replicate 4 0, true, 0, 0⟩
            [1, 1, 1]).1).length)
      ∧ (([1, 1, 1] : List ℚ).length
            ≤ (activeBuf ⟨List.replicate 4 0, List.replicate 4 0, true, 0, 0⟩).length →
          (writeAudioChunk ⟨List.replicate 4 0, List.replicate 4 0, true, 0, 0⟩
              [1, 1, 1]).2
            = (List.range ([1, 1, 1] : List ℚ).length).map
                (fun i => (⟨List.replicate 4 0, List.replicate 4 0, true, 0, 0⟩
                  : DBState).clipStart + i)
          ∧ (writeAudioChunk ⟨List.replicate 4 0, List.replicate 4 0, true, 0, 0⟩
              [1, 1, 1]).1.clipStart
            = (if (activeBuf ⟨List.replicate 4 0, List.replicate 4 0, true, 0, 0⟩).length
                  ≤ (⟨List.replicate 4 0, List.replicate 4 0, true, 0, 0⟩
                      : DBState).clipStart + ([1, 1, 1] : List ℚ).length then 0
                else (⟨List.replicate 4 0, List.replicate 4 0, true, 0, 0⟩
                    : DBState).clipStart + ([1, 1, 1] : List ℚ).length))
      ∧ ((⟨List.replicate 4 0, List.replicate 4 0, true, 0, 0⟩ : DBState).clipStart
            + ([1, 1, 1] : List ℚ).length
              = (activeBuf ⟨List.replicate 4 0, List.replicate 4 0, true, 0, 0⟩).length →
          (writeAudioChunk ⟨List.replicate 4 0, List.replicate 4 0, true, 0, 0⟩
              [1, 1, 1]).1.clipStart = 0)) :=
  ⟨⟨by simp [activeBuf], by simp [activeBuf]⟩,
    writeAudioChunk_ring ⟨List.replicate 4 0, List.replicate 4 0, true, 0, 0⟩ [1, 1, 1]
      (by simp [activeBuf]) (by simp [activeBuf])⟩

lemma getD_set_self (l : List ℚ) (i : ℕ) (a d : ℚ) (h : i < l.length) :
    (l.set i a).getD i d = a := by
  rw [List.getD_eq_getElem?_getD, List.getElem?_set_self h]
  rfl

lemma getD_set_ne (l : List ℚ) {i j : ℕ} (a d : ℚ) (h : i ≠ j) :
    (l.set i a).getD j d = l.getD j d := by
  rw [List.getD_eq_getElem?_getD, List.getElem?_set_ne h, ← List.getD_eq_getElem?_getD]

lemma fadeStep_length (b : List ℚ) (i : ℕ) : (fadeStep b i).length = b.length := by
  rw [fadeStep]
  split
  · rw [List.length_set]
  · rfl

lemma foldl_fadeStep_length (l : List ℕ) (b : List ℚ) :
    (l.foldl fadeStep b).length = b.length := by
  induction l generalizing b with
  | nil => rfl
  | cons x xs ih => rw [List.foldl_cons, ih, fadeStep_length]

lemma fadeFoldInvariant (buf : List ℚ) (hF : fadeLength ≤ buf.length) :
    ∀ k, k ≤ fadeLength →
      ∀ j, ((List.range k).foldl fadeStep buf).getD j 0 =
        (if buf.length - fadeLength ≤ j ∧ j < buf.length - fadeLength + k
         then buf.getD j 0 * fadeWeight (j - (buf.length - fadeLength))
         else buf.getD j 0) := by
  intro k
  induction k with
  | zero =>
      intro _ j
      rw [if_neg (by omega)]
      rfl
  | succ k ih =>
      intro hk j
      rw [List.range_succ, List.foldl_append, List.foldl_cons, List.foldl_nil]
      have hblen : ((List.range k).foldl fadeStep buf).length = buf.length :=
        foldl_fadeStep_length _ _
      have hidx0 : (0 : ℤ) ≤ (((List.range k).foldl fadeStep buf).length : ℤ)
          - (fadeLength : ℤ) + (k : ℤ) := by
        rw [hblen]
        omega
      have hq : ((((List.range k).foldl fadeStep buf).length : ℤ)
          - (fadeLength : ℤ) + (k : ℤ)).toNat = buf.length - fadeLength + k := by
        rw [hblen]
        omega
      rw [fadeStep, if_pos hidx0, hq]
      by_cases hj : j = buf.length - fadeLength + k
      · subst hj
        rw [getD_set_self _ _ _ _ (by rw [hblen]; omega)]
        rw [ih (by omega) (buf.length - fadeLength + k), if_neg (by omega)]
        rw [if_pos (by omega)]
        have harg : buf.length - fadeLength + k - (buf.length - fadeLength) = k := by
          omega
        rw [harg]
      · rw [getD_set_ne _ _ _ (by omega : buf.length - fadeLength + k ≠ j)]
        rw [ih (by omega) j]
        by_cases hin : buf.length - fadeLength ≤ j ∧ j < buf.length - fadeLength + k
        · rw [if_pos hin, if_pos (by omega)]
        · rw [if_neg hin, if_neg (by omega)]

lemma applyFadeOut_length (buf : List ℚ) : (applyFadeOut buf).length = buf.length :=
  foldl_fadeStep_length _ _

lemma applyFadeOut_getD (buf : List ℚ) (hF : fadeLength ≤ buf.length)
    {i : ℕ} (hi : i < fadeLength) :
    (applyFadeOut buf).getD (buf.length - fadeLength + i) 0
      = buf.getD (buf.length - fadeLength + i) 0 * fadeWeight i := by
  rw [applyFadeOut, fadeFoldInvariant buf hF fadeLength le_rfl, if_pos (by omega)]
  have harg : buf.length - fadeLength + i - (buf.length - fadeLength) = i := by
    omega
  rw [harg]

lemma inactiveBuf_clearBuffer (s : DBState) :
    inactiveBuf (clearBuffer s) = applyFadeOut (activeBuf s) := by
  by_cases h : s.activeIsOne
  · simp [clearBuffer, switchBuffer, setActiveBuf, inactiveBuf, activeBuf, h]
  · simp [clearBuffer, switchBuffer, setActiveBuf, inactiveBuf, activeBuf, h]

lemma activeBuf_clearBuffer (s : DBState) :
    activeBuf (clearBuffer s) = inactiveBuf s := by
  by_cases h : s.activeIsOne
  · simp [clearBuffer, switchBuffer, setActiveBuf, inactiveBuf, activeBuf, h]
  · simp [clearBuffer, switchBuffer, setActiveBuf, inactiveBuf, activeBuf, h]

lemma clearBuffer_pending (s : DBState) : (clearBuffer s).pending = s.pending + 1 := by
  by_cases h : s.activeIsOne
  · simp [clearBuffer, switchBuffer, setActiveBuf, h]
  · simp [clearBuffer, switchBuffer, setActiveBuf, h]

lemma clearBuffer_activeIsOne (s : DBState) :
    (clearBuffer s).activeIsOne = !s.activeIsOne := by
  by_cases h : s.activeIsOne
  · simp [clearBuffer, switchBuffer, setActiveBuf, h]
  · simp [clearBuffer, switchBuffer, setActiveBuf, h]

lemma clearInactiveBuffer_spec (s : DBState) :
    inactiveBuf (clearInactiveBuffer s) = List.replicate (inactiveBuf s).length 0
    ∧ activeBuf (clearInactiveBuffer s) = activeBuf s
    ∧ (clearInactiveBuffer s).clipStart = 0
    ∧ (clearInactiveBuffer s).pending = s.pending := by
  by_cases h : s.activeIsOne
  · simp [clearInactiveBuffer, inactiveBuf, activeBuf, h]
  · simp [clearInactiveBuffer, inactiveBuf, activeBuf, h]

lemma fireClear_of_pos (s : DBState) (h : 0 < s.pending) :
    fireClear s = { (clearInactiveBuffer s) with pending := s.pending - 1 } := by
  rw [fireClear, if_pos h]

/-- Claim C5: `clearBuffer` first multiplies the trailing `fadeLength`
samples of the active buffer by the weights `fadeWeight i = (F - i)/F` —
the linear ramp with value 1 at the start of the fade window and 0 at the
end of the buffer, strictly decreasing across the window — then swaps the
active/inactive roles, and only then schedules the deferred clear (pending
count increments; a clear firing afterwards wipes the newly-inactive,
faded buffer). -/
theorem clearBuffer_fade_spec (s : DBState)
    (hF : fadeLength ≤ (activeBuf s).length) :
    (∀ i, i < fadeLength →
      (inactiveBuf (clearBuffer s)).getD ((activeBuf s).length - fadeLength + i) 0
        = (activeBuf s).getD ((activeBuf s).length - fadeLength + i) 0 * fadeWeight i)
    ∧ (∀ i j, i < j → j ≤ fadeLength → fadeWeight j < fadeWeight i)
    ∧ fadeWeight 0 = 1 ∧ fadeWeight fadeLength = 0
    ∧ (clearBuffer s).activeIsOne = !s.activeIsOne
    ∧ (clearBuffer s).pending = s.pending + 1
    ∧ inactiveBuf (fireClear (clearBuffer s))
        = List.replicate (activeBuf s).length 0 := by
  refine ⟨?_, ?_, ?_, ?_, clearBuffer_activeIsOne s, clearBuffer_pending s, ?_⟩
  · intro i hi
    rw [inactiveBuf_clearBuffer]
    exact applyFadeOut_getD (activeBuf s) hF hi
  · intro i j hij hj
    have hF0 : (0 : ℚ) < (fadeLength : ℚ) := by norm_num [fadeLength]
    have hcast : (i : ℚ) < (j : ℚ) := by exact_mod_cast hij
    rw [fadeWeight, fadeWeight]
    exact (div_lt_div_iff_of_pos_right hF0).2 (by linarith)
  · rw [fadeWeight]
    norm_num [fadeLength]
  · rw [fadeWeight]
    simp
  · rw [fireClear_of_pos _ (by rw [clearBuffer_pending]; omega)]
    have hspec := clearInactiveBuffer_spec (clearBuffer s)
    have : inactiveBuf { (clearInactiveBuffer (clearBuffer s)) with
        pending := (clearBuffer s).pending - 1 }
        = inactiveBuf (clearInactiveBuffer (clearBuffer s)) := rfl
    rw [this, hspec.1, inactiveBuf_clearBuffer, applyFadeOut_length]

/-- Witness for C5 at a concrete state with a 441-sample active buffer. -/
theorem clearBuffer_fade_spec_witness :
    (fadeLength
        ≤ (activeBuf ⟨List.replicate 441 1, List.replicate 441 0, true, 0, 0⟩).length)
    ∧ ((∀ i, i < fadeLength →
        (inactiveBuf (clearBuffer ⟨List.replicate 441 1, List.replicate 441 0, true, 0, 0⟩)).getD
            ((activeBuf (⟨List.replicate 441 1, List.replicate 441 0, true, 0, 0⟩
              : DBState)).length - fadeLength + i) 0
          = (activeBuf (⟨List.replicate 441 1, List.replicate 441 0, true, 0, 0⟩
              : DBState)).getD
              ((activeBuf (⟨List.replicate 441 1, List.replicate 441 0, true, 0, 0⟩
                : DBState)).length - fadeLength + i) 0 * fadeWeight i)
      ∧ (∀ i j, i < j → j ≤ fadeLength → fadeWeight j < fadeWeight i)
      ∧ fadeWeight 0 = 1 ∧ fadeWeight fadeLength = 0
      ∧ (clearBuffer (⟨List.replicate 441 1, List.replicate 441 0, true, 0, 0⟩
            : DBState)).activeIsOne
          = !(⟨List.replicate 441 1, List.replicate 441 0, true, 0, 0⟩
            : DBState).activeIsOne
      ∧ (clearBuffer (⟨List.replicate 441 1, List.replicate 441 0, true, 0, 0⟩
            : DBState)).pending
          = (⟨List.replicate 441 1, List.replicate 441 0, true, 0, 0⟩
            : DBState).pending + 1
      ∧ inactiveBuf (fireClear (clearBuffer
            (⟨List.replicate 441 1, List.replicate 441 0, true, 0, 0⟩ : DBState)))
          = List.replicate (activeBuf (⟨List.replicate 441 1, List.replicate 441 0,
              true, 0, 0⟩ : DBState)).length 0) :=
  ⟨by simp [activeBuf, fadeLength],
    clearBuffer_fade_spec ⟨List.replicate 441 1, List.replicate 441 0, true, 0, 0⟩
      (by simp [activeBuf, fadeLength])⟩

/-- Counterexample to claim C6 as stated: two consecutive `clearBuffer`
calls with no timer firing in between leave TWO pending deferred clears —
the first is never cancelled (the source keeps no handle to a scheduled
task, so it cannot cancel one), and it still fires: after one firing a
pending clear remains. -/
theorem clearBuffer_no_cancel_cex :
    (clearBuffer (clearBuffer ⟨List.replicate 4 0, List.replicate 4 0, true, 0, 0⟩)).pending = 2
    ∧ (fireClear (clearBuffer (clearBuffer
        ⟨List.replicate 4 0, List.replicate 4 0, true, 0, 0⟩))).pending = 1
    ∧ (2 : ℕ) ≠ 1 := by
  have h2 : (clearBuffer (clearBuffer
      ⟨List.replicate 4 0, List.replicate 4 0, true, 0, 0⟩)).pending = 2 := by
    rw [clearBuffer_pending, clearBuffer_pending]
  refine ⟨h2, ?_, by decide⟩
  rw [fireClear_of_pos _ (by rw [h2]; omega), h2]

/-- Claim C6 (amended): `clearBuffer` never cancels a previously scheduled
deferred clear — each call adds one more pending clear task.  Every pending
task eventually fires, and when it fires it clears whichever buffer is
inactive at that moment (not the buffer that was inactive when it was
scheduled) and resets the write cursor to 0. -/
theorem clearBuffer_schedules_extra (s : DBState) :
    (clearBuffer s).pending = s.pending + 1
    ∧ (0 < s.pending →
        (fireClear s).pending = s.pending - 1
        ∧ inactiveBuf (fireClear s) = List.replicate (inactiveBuf s).length 0
        ∧ activeBuf (fireClear s) = activeBuf s
        ∧ (fireClear s).clipStart = 0) := by
  refine ⟨clearBuffer_pending s, fun hp => ?_⟩
  rw [fireClear_of_pos s hp]
  obtain ⟨hi, ha, hc, -⟩ := clearInactiveBuffer_spec s
  exact ⟨rfl, hi, ha, hc⟩

/-- Witness for the amended C6 at a concrete state with one pending clear. -/
theorem clearBuffer_schedules_extra_witness :
    ((0 : ℕ) < (⟨[1], [2], true, 3, 1⟩ : DBState).pending)
    ∧ ((clearBuffer (⟨[1], [2], true, 3, 1⟩ : DBState)).pending
        = (⟨[1], [2], true, 3, 1⟩ : DBState).pending + 1
      ∧ ((fireClear (⟨[1], [2], true, 3, 1⟩ : DBState)).pending
            = (⟨[1], [2], true, 3, 1⟩ : DBState).pending - 1
        ∧ inactiveBuf (fireClear (⟨[1], [2], true, 3, 1⟩ : DBState))
            = List.replicate (inactiveBuf (⟨[1], [2], true, 3, 1⟩ : DBState)).length 0
        ∧ activeBuf (fireClear (⟨[1], [2], true, 3, 1⟩ : DBState))
            = activeBuf (⟨[1], [2], true, 3, 1⟩ : DBState)
        ∧ (fireClear (⟨[1], [2], true, 3, 1⟩ : DBState)).clipStart = 0)) :=
  ⟨by decide,
    ⟨(clearBuffer_schedules_extra ⟨[1], [2], true, 3, 1⟩).1,
      (clearBuffer_schedules_extra ⟨[1], [2], true, 3, 1⟩).2 (by decide)⟩⟩

/-! ### Recorder (`stopRecording` / `saveAudioFile` in UDPdown.js) -/

/-- The module-level recording state of UDPdown.js used by `stopRecording`. -/
structure RecSession where
  recordingAudio : List ℚ

/-- `stopRecording()` of UDPdown.js, with the outcome of the container write
supplied as `writeOk`.  If no samples are accumulated it reports the empty
recording and returns.  Otherwise it awaits `saveAudioFile`, whose internal
`try/catch` reports a write error but never rethrows, and then the line
`recordingAudio = []` runs unconditionally.  Result: the new state, whether
the empty-recording condition was reported, and whether a write error was
reported. -/
def stopRecording (writeOk : Bool) (s : RecSession) : RecSession × Bool × Bool :=
  if s.recordingAudio.length = 0 then (s, true, false)
  else (⟨[]⟩, false, !writeOk)

/-- Counterexample to claim C7 as stated: stopping with a non-empty
accumulated sequence `[1, 2, 3]` and a failing container write reports the
error but still clears the in-memory sample sequence — it is not preserved
for a retry. -/
theorem stopRecording_clears_cex :
    (stopRecording false ⟨[1, 2, 3]⟩).1.recordingAudio = []
    ∧ (stopRecording false ⟨[1, 2, 3]⟩).2.2 = true
    ∧ ([] : List ℚ) ≠ [1, 2, 3] := by
  refine ⟨?_, ?_, by simp⟩
  · rw [stopRecording, if_neg (by simp)]
  · rw [stopRecording, if_neg (by simp)]
    rfl

/-- Claim C7 (amended): for every session with a non-empty accumulated
sequence, a failing container write is reported, but the in-memory sequence
is cleared all the same (exactly as on success); only the empty-session path
leaves the state untouched. -/
theorem stopRecording_spec (writeOk : Bool) (s : RecSession)
    (h : s.recordingAudio ≠ []) :
    (stopRecording writeOk s).1.recordingAudio = []
    ∧ (stopRecording writeOk s).2.2 = !writeOk
    ∧ (stopRecording writeOk s).2.1 = false := by
  have hlen : ¬ s.recordingAudio.length = 0 := by
    simpa using h
  rw [stopRecording, if_neg hlen]
  exact ⟨rfl, rfl, rfl⟩

/-- Witness for the amended C7 at the session `[5]` with a failing write. -/
theorem stopRecording_spec_witness :
    ((⟨[5]⟩ : RecSession).recordingAudio ≠ [])
    ∧ ((stopRecording false ⟨[5]⟩).1.recordingAudio = []
      ∧ (stopRecording false ⟨[5]⟩).2.2 = !false
      ∧ (stopRecording false ⟨[5]⟩).2.1 = false) :=
  ⟨by simp, stopRecording_spec false ⟨[5]⟩ (by simp)⟩

/-! ### UDPdown.js decoder state and packet handler -/

/-- The discontinuity comparison of the UDPdown decoder: the last accepted
sample of the previous chunk against the first of the current chunk, with
threshold 0.01. -/
def discontinuitySignal (lastValue : Option ℚ) (floatData : List ℚ) : Bool :=
  match lastValue, floatData with
  | some lv, v :: _ => if 1/100 < |lv - v| then true else false
  | _, _ => false

/-- The update of `lastValue`/`lastIndex` at the end of the UDPdown decoder:
refreshed only when the chunk is non-empty and its last value is below
`1e+20`. -/
def refreshLast (floatData : List ℚ) (lastValue : Option ℚ)
    (lastIndex : Option ℕ) : Option ℚ × Option ℕ :=
  match floatData.getLast? with
  | some lastF =>
      if |lastF| < 10^20 then (some lastF, some (floatData.length - 1))
      else (lastValue, lastIndex)
  | none => (lastValue, lastIndex)

/-- `convertMatrixToFloat32` of UDPdown.js including its module-level
continuity state (`lastValue`, `lastIndex`).  Returns the decoded samples,
the discontinuity signal (used for diagnostics only: in the source even the
log line inside the check is commented out), and the updated state. -/
def convertMatrixToFloat32UDP (data : List ℕ) (lastValue : Option ℚ)
    (lastIndex : Option ℕ) : List ℚ × Bool × Option ℚ × Option ℕ :=
  let floatData := convertFloatsUDP data
  let r := refreshLast floatData lastValue lastIndex
  (floatData, discontinuitySignal lastValue floatData, r.1, r.2)

lemma convertUDP_fst (data : List ℕ) (lv : Option ℚ) (li : Option ℕ) :
    (convertMatrixToFloat32UDP data lv li).1 = convertFloatsUDP data := rfl

/-- Claim C9: the continuity heuristic is diagnostics-only — the samples
returned by the UDPdown decoder are a function of the payload bytes alone:
two runs over the same payload with different carried last-sample state
return equal chunks, both equal to the pure decoding of the payload. -/
theorem convertUDP_output_state_independent (data : List ℕ)
    (lv1 lv2 : Option ℚ) (li1 li2 : Option ℕ) :
    (convertMatrixToFloat32UDP data lv1 li1).1
      = (convertMatrixToFloat32UDP data lv2 li2).1
    ∧ (convertMatrixToFloat32UDP data lv1 li1).1 = convertFloatsUDP data := by
  rw [convertUDP_fst, convertUDP_fst]
  exact ⟨rfl, rfl⟩

/-- Module-level mutable state of UDPdown.js touched by its `message`
handler: the recording accumulator, the `float_data.txt` diagnostic sink
(modelled as the list of values appended), the chunk counter, and the
continuity state. -/
structure UDPDownState where
  recordingAudio : List ℚ
  fileLines : List ℚ
  chunkCounter : ℕ
  lastValue : Option ℚ
  lastIndex : Option ℕ

/-- The `message` handler of `startServer()` in UDPdown.js: decode the
payload (which may refresh the continuity state); if no valid samples were
produced, return — otherwise append the samples to the recording
accumulator, append them to the diagnostic file, and increment the chunk
counter. -/
def onMessageUDP (data : List ℕ) (s : UDPDownState) : UDPDownState :=
  let r := convertMatrixToFloat32UDP data s.lastValue s.lastIndex
  let s1 : UDPDownState := { s with lastValue := r.2.2.1, lastIndex := r.2.2.2 }
  if r.1.length = 0 then s1
  else
    { s1 with
      recordingAudio := s1.recordingAudio ++ r.1,
      fileLines := s1.fileLines ++ r.1,
      chunkCounter := s1.chunkCounter + 1 }

/-! ### sRtin.js packet handler -/

/-- `convertFloat32ToInt16` of sRtin.js:
`Math.max(-32768, Math.min(32767, Math.round(v * 32767)))` per sample. -/
def convertFloat32ToInt16 (l : List ℚ) : List ℤ :=
  l.map (fun v => max (-32768) (min 32767 (jsRound (v * 32767))))

/-- Module-level mutable state of sRtin.js touched by its `message` handler:
the frame accumulator `audioBuffer`, the recording accumulator, the
recording flag, and the frames handed to the recognizer (in order). -/
structure SRtinState where
  audioBuffer : List ℤ
  recordingAudio : List ℤ
  isRecording : Bool
  voskFrames : List (List ℤ)

/-- The `message` handler of `startServer()` in sRtin.js: decode; if no
valid samples, return.  Otherwise convert to int16, append to the frame
accumulator, and drain every complete `TARGET_SAMPLE_RATE`-sized chunk:
each drained chunk is downsampled, appended to the recording accumulator
when recording, and fed to the recognizer. -/
def onMessageSRtin (data : List ℕ) (s : SRtinState) : SRtinState :=
  let floatData := convertMatrixToFloat32 data
  if floatData.length = 0 then s
  else
    let int16Data := convertFloat32ToInt16 floatData
    let d := drainFrames TARGET_SAMPLE_RATE (s.audioBuffer ++ int16Data)
    let downs := d.1.map (fun c => downsampleAudio c INPUT_SAMPLE_RATE TARGET_SAMPLE_RATE)
    { audioBuffer := d.2,
      recordingAudio := s.recordingAudio
        ++ (if s.isRecording then downs.flatten else []),
      isRecording := s.isRecording,
      voskFrames := s.voskFrames ++ downs }

lemma discontinuitySignal_nil (lv : Option ℚ) : discontinuitySignal lv [] = false := by
  rcases lv with - | lval
  · rfl
  · rfl

lemma refreshLast_nil (lv : Option ℚ) (li : Option ℕ) :
    refreshLast [] lv li = (lv, li) := rfl

lemma convertUDP_of_empty (data : List ℕ) (lv : Option ℚ) (li : Option ℕ)
    (h : convertFloatsUDP data = []) :
    convertMatrixToFloat32UDP data lv li = ([], false, lv, li) := by
  rw [convertMatrixToFloat32UDP]
  simp only [h, discontinuitySignal_nil, refreshLast_nil]

/-- Claim C10: a payload whose decode yields zero valid samples has no
downstream effect in either receiver — the recording accumulator, chunk
counter, diagnostic file, continuity state, frame accumulator, and the
frames handed to the recognizer all remain exactly as before the packet. -/
theorem emptyDecode_noop (data : List ℕ) (s : UDPDownState) (t : SRtinState)
    (h1 : convertFloatsUDP data = []) (h2 : convertMatrixToFloat32 data = []) :
    onMessageUDP data s = s ∧ onMessageSRtin data t = t := by
  constructor
  · rw [onMessageUDP, convertUDP_of_empty data s.lastValue s.lastIndex h1]
    rfl
  · rw [onMessageSRtin]
    simp [h2]

/-- Witness for C10: the empty payload decodes to zero samples under both
decoders and leaves concrete states of both receivers unchanged. -/
theorem emptyDecode_noop_witness :
    (convertFloatsUDP [] = [] ∧ convertMatrixToFloat32 [] = [])
    ∧ (onMessageUDP [] ⟨[1], [2], 3, some 4, some 5⟩ = ⟨[1], [2], 3, some 4, some 5⟩
      ∧ onMessageSRtin [] ⟨[6], [7], true, [[8]]⟩ = ⟨[6], [7], true, [[8]]⟩) :=
  ⟨⟨convertLoop_of_stop 10000000 [] (by simp),
      convertLoop_of_stop 10 [] (by simp)⟩,
    emptyDecode_noop [] ⟨[1], [2], 3, some 4, some 5⟩ ⟨[6], [7], true, [[8]]⟩
      (convertLoop_of_stop 10000000 [] (by simp))
      (convertLoop_of_stop 10 [] (by simp))⟩

end MaxUDP
